import Mathlib

/-!
Shallow embedding of the shift-schedule optimizer of the
team-time-orchestrator repository (src/utils/scheduleOptimizer.ts,
src/utils/scheduleUtils.ts, and the diff step of
src/components/workperiod/ScheduleGrid.tsx), together with theorems
settling the specification claims about it.

Dates are modelled as serial day numbers (`Int`); `daysFromCivil`
links a calendar date `y-m-d` to its serial number, playing the role
of `parseISO`/`format yyyy-MM-dd` (both injective on valid dates, so
any injective encoding of date keys is faithful).  The JS grid object
`Record<string, Record<string, CellData>>` is modelled as an
association list with first-match lookup and first-match update, which
agrees with JS object semantics (JS object keys are unique).
-/

/-- The state of one (user, day) pair, `CellData` in the source. -/
structure CellData where
  id : Option String := none
  assigned : Bool
  locked : Bool
  requested_off : Bool
deriving DecidableEq, Repr

/-- A persisted shift row, `ShiftRecord` in the source (fields not read by
the grid builder are omitted). -/
structure ShiftRecord where
  id : String
  user_id : String
  shift_date : Int
  assigned : Bool
  locked : Bool
  requested_off : Bool
deriving DecidableEq, Repr

/-- A work period, `WorkPeriod` in the source (fields not read by the
optimizer are omitted); dates are serial day numbers. -/
structure WorkPeriod where
  start_date : Int
  end_date : Int
  needed_capacity : Int
deriving DecidableEq, Repr

/-- One user's row of the grid: date key to cell. -/
abbrev GridRow := List (Int × CellData)

/-- The schedule grid: user id to row, `ScheduleGrid` in the source. -/
abbrev ScheduleGrid := List (String × GridRow)

/-- First-match lookup in an association list (JS `obj[key]`). -/
def getFirst {α β : Type} [DecidableEq α] (k : α) : List (α × β) → Option β
  | [] => none
  | (k', v) :: rest => if k' = k then some v else getFirst k rest

/-- First-match update in an association list (JS `obj[key] = ...`,
a no-op when the key is absent; every caller in the source guards the
assignment with a presence check). -/
def updFirst {α β : Type} [DecidableEq α] (k : α) (f : β → β) :
    List (α × β) → List (α × β)
  | [] => []
  | (k', v) :: rest =>
    if k' = k then (k', f v) :: rest else (k', v) :: updFirst k f rest

/-- The cell of the grid at (user, date): JS `grid[userId]?.[dateKey]`. -/
def gridCell (g : ScheduleGrid) (u : String) (d : Int) : Option CellData :=
  (getFirst u g).bind (getFirst d)

/-- Set the `assigned` flag of the cell at (user, date):
JS `grid[userId][dateKey].assigned = b` (guarded by presence checks). -/
def setAssigned (g : ScheduleGrid) (u : String) (d : Int) (b : Bool) :
    ScheduleGrid :=
  updFirst u (updFirst d (fun c => { c with assigned := b })) g

/-- Is the cell at (user, date) present and assigned
(JS `grid[userId] && grid[userId][dateKey] && grid[userId][dateKey].assigned`). -/
def cellAssigned (g : ScheduleGrid) (u : String) (d : Int) : Bool :=
  match gridCell g u d with
  | some c => c.assigned
  | none => false

/-- Number of users of the list whose cell at the date is assigned:
the `assignedCount` loop of `optimizeSchedule` (scheduleOptimizer.ts
lines 24-29). -/
def countAssignedForDate (g : ScheduleGrid) (userIds : List String)
    (d : Int) : Nat :=
  (userIds.filter (fun u => cellAssigned g u d)).length

/-- A user's total assigned-day count across the whole grid:
JS `Object.values(newGrid[a] || {}).filter(cell => cell && cell.assigned).length`. -/
def totalAssignments (g : ScheduleGrid) (u : String) : Nat :=
  match getFirst u g with
  | some row => (row.filter (fun e => e.2.assigned)).length
  | none => 0

/-- The serial day numbers of the period's inclusive date range, in
chronological order: the `for (let i = 0; i < days; i++)` iteration with
`days = differenceInDays(end, start) + 1` and key `addDays(start, i)`.
Empty when `end < start` (the JS loop body never runs). -/
def periodDates (p : WorkPeriod) : List Int :=
  (List.range (p.end_date - p.start_date + 1).toNat).map
    (fun (i : Nat) => p.start_date + (i : Int))

/-- The filling walk of `optimizeSchedule` (lines 43-60): walk the ranked
users, skip a missing cell and a cell already assigned, locked or
requested off, otherwise assign and stop as soon as the counter reaches
the needed capacity. -/
def fillLoop (cap : Int) (d : Int) :
    List String → ScheduleGrid → Int → ScheduleGrid
  | [], g, _ => g
  | u :: rest, g, count =>
    match gridCell g u d with
    | none => fillLoop cap d rest g count
    | some c =>
      if c.assigned || c.locked || c.requested_off then
        fillLoop cap d rest g count
      else
        let g' := setAssigned g u d true
        if count + 1 ≥ cap then g' else fillLoop cap d rest g' (count + 1)

/-- The removal walk of `optimizeSchedule` (lines 74-93): walk the ranked
users, skip a missing cell and a locked cell, unassign an assigned cell
and stop as soon as the counter is down to the needed capacity. -/
def removeLoop (cap : Int) (d : Int) :
    List String → ScheduleGrid → Int → ScheduleGrid
  | [], g, _ => g
  | u :: rest, g, count =>
    match gridCell g u d with
    | none => removeLoop cap d rest g count
    | some c =>
      if c.locked then removeLoop cap d rest g count
      else if c.assigned then
        let g' := setAssigned g u d false
        if count - 1 ≤ cap then g' else removeLoop cap d rest g' (count - 1)
      else removeLoop cap d rest g count

/-- One day of `optimizeSchedule` (lines 19-95): count the assigned users,
then fill (ranking users ascending by total workload, stable) when under
capacity, remove (ranking descending, stable) when over capacity, do
nothing at capacity.  JS `Array.prototype.sort` is stable, modelled by
`List.insertionSort`. -/
def optimizeDay (cap : Int) (userIds : List String)
    (g : ScheduleGrid) (d : Int) : ScheduleGrid :=
  if (countAssignedForDate g userIds d : Int) < cap then
    fillLoop cap d
      (userIds.insertionSort
        (fun a b => totalAssignments g a ≤ totalAssignments g b)) g
      (countAssignedForDate g userIds d)
  else if cap < (countAssignedForDate g userIds d : Int) then
    removeLoop cap d
      (userIds.insertionSort
        (fun a b => totalAssignments g b ≤ totalAssignments g a)) g
      (countAssignedForDate g userIds d)
  else g

/-- The optimizer, `optimizeSchedule` in scheduleOptimizer.ts: a
day-by-day pass over the period's date range on a copy of the grid
(the JSON deep copy is the identity in a pure model). -/
def optimizeSchedule (p : WorkPeriod) (userIds : List String)
    (g : ScheduleGrid) : ScheduleGrid :=
  (periodDates p).foldl (optimizeDay p.needed_capacity userIds) g

/-- The default cell of the freshly built grid
(scheduleUtils.ts lines 23-27). -/
def defaultCell : CellData :=
  { assigned := false, locked := false, requested_off := false }

/-- Overwrite the cell at (user, date) with a record's data when the cell
is present (scheduleUtils.ts lines 32-41). -/
def applyShift (g : ScheduleGrid) (s : ShiftRecord) : ScheduleGrid :=
  match gridCell g s.user_id s.shift_date with
  | none => g
  | some _ =>
    updFirst s.user_id
      (updFirst s.shift_date (fun _ =>
        { id := some s.id, assigned := s.assigned, locked := s.locked,
          requested_off := s.requested_off })) g

/-- The grid builder, `initializeScheduleGrid` in scheduleUtils.ts:
default cells for every user and in-range date, then overlay the shift
records whose (user, date) hits an existing cell. -/
def initializeScheduleGrid (p : WorkPeriod) (userIds : List String)
    (shifts : List ShiftRecord) : ScheduleGrid :=
  let base : ScheduleGrid :=
    userIds.map (fun u => (u, (periodDates p).map (fun d => (d, defaultCell))))
  shifts.foldl applyShift base

/-- Serial day number of a calendar date (days since 1970-01-01, the
civil-from-days algorithm used by date libraries); stands for
`parseISO` composed with the serial representation.  All divisions act
on non-negative operands for the dates of interest. -/
def daysFromCivil (y m d : Int) : Int :=
  let y' := if m ≤ 2 then y - 1 else y
  let era := (if 0 ≤ y' then y' else y' - 399) / 400
  let yoe := y' - era * 400
  let mp := (m + 9) % 12
  let doy := (153 * mp + 2) / 5 + d - 1
  let doe := yoe * 365 + yoe / 4 - yoe / 100 + doy
  era * 146097 + doe - 719468

/-! ### Association-list lemmas -/

theorem getFirst_updFirst_self {α β : Type} [DecidableEq α] (k : α)
    (f : β → β) (l : List (α × β)) :
    getFirst k (updFirst k f l) = (getFirst k l).map f := by
  induction l with
  | nil => rfl
  | cons e rest ih =>
    obtain ⟨k', v⟩ := e
    by_cases h : k' = k <;> simp [updFirst, getFirst, h, ih]

theorem getFirst_updFirst_ne {α β : Type} [DecidableEq α] {k k' : α}
    (f : β → β) (l : List (α × β)) (h : k' ≠ k) :
    getFirst k' (updFirst k f l) = getFirst k' l := by
  induction l with
  | nil => rfl
  | cons e rest ih =>
    obtain ⟨k₀, v⟩ := e
    by_cases h0 : k₀ = k
    · subst h0
      simp [updFirst, getFirst, Ne.symm h]
    · by_cases h1 : k₀ = k' <;> simp [updFirst, getFirst, h0, h1, h, ih]

theorem map_updFirst {α β γ : Type} [DecidableEq α] (k : α) (f : β → β)
    (h : β → γ) (l : List (α × β)) (hf : ∀ b, h (f b) = h b) :
    (updFirst k f l).map (fun e => (e.1, h e.2)) =
      l.map (fun e => (e.1, h e.2)) := by
  induction l with
  | nil => rfl
  | cons e rest ih =>
    obtain ⟨k₀, v⟩ := e
    by_cases h0 : k₀ = k <;> simp [updFirst, h0, hf, ih]

/-! ### Cell get/set lemmas -/

theorem gridCell_setAssigned_self (g : ScheduleGrid) (u : String) (d : Int)
    (b : Bool) :
    gridCell (setAssigned g u d b) u d =
      (gridCell g u d).map (fun c => { c with assigned := b }) := by
  unfold gridCell setAssigned
  rw [getFirst_updFirst_self]
  cases getFirst u g with
  | none => rfl
  | some row => simp [getFirst_updFirst_self]

theorem gridCell_setAssigned_ne (g : ScheduleGrid) {u u' : String}
    {d d' : Int} (b : Bool) (h : u' ≠ u ∨ d' ≠ d) :
    gridCell (setAssigned g u d b) u' d' = gridCell g u' d' := by
  unfold gridCell setAssigned
  by_cases hu : u' = u
  · subst hu
    rcases h with h | h
    · exact absurd rfl h
    · rw [getFirst_updFirst_self]
      cases getFirst u' g with
      | none => rfl
      | some row => simp [getFirst_updFirst_ne _ _ h]
  · rw [getFirst_updFirst_ne _ _ hu]

theorem cellAssigned_setAssigned_self (g : ScheduleGrid) (u : String)
    (d : Int) (b : Bool) (c : CellData) (hc : gridCell g u d = some c) :
    cellAssigned (setAssigned g u d b) u d = b := by
  unfold cellAssigned
  rw [gridCell_setAssigned_self, hc]
  rfl

theorem cellAssigned_setAssigned_ne (g : ScheduleGrid) {u u' : String}
    {d d' : Int} (b : Bool) (h : u' ≠ u ∨ d' ≠ d) :
    cellAssigned (setAssigned g u d b) u' d' = cellAssigned g u' d' := by
  unfold cellAssigned
  rw [gridCell_setAssigned_ne g b h]

/-! ### Loop preservation lemmas -/

theorem fillLoop_gridCell_ne (cap d : Int) (l : List String)
    (g : ScheduleGrid) (cnt : Int) {u' : String} {d' : Int} (h : d' ≠ d) :
    gridCell (fillLoop cap d l g cnt) u' d' = gridCell g u' d' := by
  induction l generalizing g cnt with
  | nil => rfl
  | cons u₁ rest ih =>
    simp only [fillLoop]
    cases hc : gridCell g u₁ d with
    | none => exact ih g cnt
    | some c =>
      by_cases hskip : (c.assigned || c.locked || c.requested_off) = true
      · simp only [hskip, if_true]
        exact ih g cnt
      · simp only [hskip, if_false, Bool.false_eq_true]
        split
        · exact gridCell_setAssigned_ne g true (Or.inr h)
        · rw [ih _ _]
          exact gridCell_setAssigned_ne g true (Or.inr h)

theorem removeLoop_gridCell_ne (cap d : Int) (l : List String)
    (g : ScheduleGrid) (cnt : Int) {u' : String} {d' : Int} (h : d' ≠ d) :
    gridCell (removeLoop cap d l g cnt) u' d' = gridCell g u' d' := by
  induction l generalizing g cnt with
  | nil => rfl
  | cons u₁ rest ih =>
    simp only [removeLoop]
    cases hc : gridCell g u₁ d with
    | none => exact ih g cnt
    | some c =>
      by_cases hl : c.locked = true
      · simp only [hl, if_true]
        exact ih g cnt
      · simp only [hl, if_false, Bool.false_eq_true]
        by_cases ha : c.assigned = true
        · simp only [ha, if_true]
          split
          · exact gridCell_setAssigned_ne g false (Or.inr h)
          · rw [ih _ _]
            exact gridCell_setAssigned_ne g false (Or.inr h)
        · simp only [ha, if_false, Bool.false_eq_true]
          exact ih g cnt

theorem fillLoop_skip_cell (cap d : Int) (l : List String)
    (g : ScheduleGrid) (cnt : Int) {u : String} {c : CellData}
    (hc : gridCell g u d = some c)
    (hs : (c.assigned || c.locked || c.requested_off) = true) :
    gridCell (fillLoop cap d l g cnt) u d = some c := by
  induction l generalizing g cnt with
  | nil => exact hc
  | cons u₁ rest ih =>
    simp only [fillLoop]
    cases hc1 : gridCell g u₁ d with
    | none => exact ih g cnt hc
    | some c₁ =>
      by_cases hskip : (c₁.assigned || c₁.locked || c₁.requested_off) = true
      · simp only [hskip, if_true]
        exact ih g cnt hc
      · have hne : u ≠ u₁ := by
          intro he
          rw [he, hc1] at hc
          cases hc
          exact hskip hs
        have hpres : gridCell (setAssigned g u₁ d true) u d = some c := by
          rw [gridCell_setAssigned_ne g true (Or.inl hne)]
          exact hc
        simp only [hskip, if_false, Bool.false_eq_true]
        split
        · exact hpres
        · exact ih _ _ hpres

theorem removeLoop_skip_cell (cap d : Int) (l : List String)
    (g : ScheduleGrid) (cnt : Int) {u : String} {c : CellData}
    (hc : gridCell g u d = some c)
    (hs : c.locked = true ∨ c.assigned = false) :
    gridCell (removeLoop cap d l g cnt) u d = some c := by
  induction l generalizing g cnt with
  | nil => exact hc
  | cons u₁ rest ih =>
    simp only [removeLoop]
    cases hc1 : gridCell g u₁ d with
    | none => exact ih g cnt hc
    | some c₁ =>
      by_cases hl : c₁.locked = true
      · simp only [hl, if_true]
        exact ih g cnt hc
      · simp only [hl, if_false, Bool.false_eq_true]
        by_cases ha : c₁.assigned = true
        · have hne : u ≠ u₁ := by
            intro he
            rw [he, hc1] at hc
            cases hc
            rcases hs with hs | hs
            · exact hl hs
            · rw [hs] at ha
              cases ha
          have hpres : gridCell (setAssigned g u₁ d false) u d = some c := by
            rw [gridCell_setAssigned_ne g false (Or.inl hne)]
            exact hc
          simp only [ha, if_true]
          split
          · exact hpres
          · exact ih _ _ hpres
        · simp only [ha, if_false, Bool.false_eq_true]
          exact ih g cnt hc

theorem optimizeDay_untouched_cell (cap : Int) (us : List String)
    (g : ScheduleGrid) (d : Int) {u : String} {d' : Int} {c : CellData}
    (hc : gridCell g u d' = some c)
    (hfill : (c.assigned || c.locked || c.requested_off) = true)
    (hrem : c.locked = true ∨ c.assigned = false) :
    gridCell (optimizeDay cap us g d) u d' = some c := by
  unfold optimizeDay
  split
  · by_cases hd : d' = d
    · subst hd
      exact fillLoop_skip_cell _ _ _ _ _ hc hfill
    · rw [fillLoop_gridCell_ne _ _ _ _ _ hd]
      exact hc
  · split
    · by_cases hd : d' = d
      · subst hd
        exact removeLoop_skip_cell _ _ _ _ _ hc hrem
      · rw [removeLoop_gridCell_ne _ _ _ _ _ hd]
        exact hc
    · exact hc

theorem foldl_optimizeDay_untouched (cap : Int) (us : List String)
    (ds : List Int) (g : ScheduleGrid) {u : String} {d : Int} {c : CellData}
    (hc : gridCell g u d = some c)
    (hfill : (c.assigned || c.locked || c.requested_off) = true)
    (hrem : c.locked = true ∨ c.assigned = false) :
    gridCell (ds.foldl (optimizeDay cap us) g) u d = some c := by
  induction ds generalizing g with
  | nil => exact hc
  | cons d₁ rest ih =>
    exact ih _ (optimizeDay_untouched_cell cap us g d₁ hc hfill hrem)

/-- C1: Lock invariance — a cell of the input grid with `locked = true`
keeps its `assigned` value (indeed its whole value) in the grid returned
by `optimizeSchedule`, for every period, user list and grid. -/
theorem optimizeSchedule_lock_invariance (p : WorkPeriod)
    (us : List String) (g : ScheduleGrid) (u : String) (d : Int)
    (c : CellData) (hc : gridCell g u d = some c)
    (hl : c.locked = true) :
    ∃ c', gridCell (optimizeSchedule p us g) u d = some c' ∧
      c'.assigned = c.assigned :=
  ⟨c, foldl_optimizeDay_untouched _ _ _ _ hc (by simp [hl]) (Or.inl hl), rfl⟩

/-- C1 witness: a locked assigned cell under capacity pressure
(`neededCapacity = 0`) keeps `assigned = true`. -/
theorem optimizeSchedule_lock_invariance_witness :
    ∃ c', gridCell
        (optimizeSchedule ⟨0, 0, 0⟩ ["A"]
          [("A", [((0 : Int), ⟨none, true, true, false⟩)])]) "A" 0 =
        some c' ∧
      c'.assigned = (⟨none, true, true, false⟩ : CellData).assigned :=
  optimizeSchedule_lock_invariance ⟨0, 0, 0⟩ ["A"]
    [("A", [((0 : Int), ⟨none, true, true, false⟩)])] "A" 0
    ⟨none, true, true, false⟩ (by decide) (by decide)

/-- C3: No new requested-off assignment — a cell of the input grid with
`requested_off = true`, `assigned = false` and `locked = false` still has
`assigned = false` in the grid returned by `optimizeSchedule`, for every
period, user list and grid. -/
theorem optimizeSchedule_no_new_requested_off (p : WorkPeriod)
    (us : List String) (g : ScheduleGrid) (u : String) (d : Int)
    (c : CellData) (hc : gridCell g u d = some c)
    (hr : c.requested_off = true) (ha : c.assigned = false)
    (_hl : c.locked = false) :
    ∃ c', gridCell (optimizeSchedule p us g) u d = some c' ∧
      c'.assigned = false :=
  ⟨c, foldl_optimizeDay_untouched _ _ _ _ hc (by simp [hr]) (Or.inr ha), ha⟩

/-- C3 witness: the only candidate of an under-capacity day is
requested off and stays unassigned. -/
theorem optimizeSchedule_no_new_requested_off_witness :
    ∃ c', gridCell
        (optimizeSchedule ⟨0, 0, 1⟩ ["A"]
          [("A", [((0 : Int), ⟨none, false, false, true⟩)])]) "A" 0 =
        some c' ∧
      c'.assigned = false :=
  optimizeSchedule_no_new_requested_off ⟨0, 0, 1⟩ ["A"]
    [("A", [((0 : Int), ⟨none, false, false, true⟩)])] "A" 0
    ⟨none, false, false, true⟩ (by decide) (by decide) (by decide) (by decide)

/-! ### Frame property machinery -/

/-- A cell with its `assigned` flag forgotten (reset to `false`). -/
def eraseCellAssigned (c : CellData) : CellData :=
  { c with assigned := false }

/-- A row with every `assigned` flag forgotten. -/
def eraseRowAssigned (row : GridRow) : GridRow :=
  row.map (fun e => (e.1, eraseCellAssigned e.2))

/-- A grid with every `assigned` flag forgotten: two grids with equal
images under this map have the same user keys, the same date keys and
cell-wise equal `id`, `locked` and `requested_off` fields, and may differ
only in `assigned` flags. -/
def eraseAssigned (g : ScheduleGrid) : ScheduleGrid :=
  g.map (fun e => (e.1, eraseRowAssigned e.2))

theorem getFirst_map {α β γ : Type} [DecidableEq α] (k : α) (h : β → γ)
    (l : List (α × β)) :
    getFirst k (l.map (fun e => (e.1, h e.2))) = (getFirst k l).map h := by
  induction l with
  | nil => rfl
  | cons e rest ih =>
    obtain ⟨k₀, v⟩ := e
    by_cases h0 : k₀ = k <;> simp [getFirst, h0, ih]

theorem eraseAssigned_setAssigned (g : ScheduleGrid) (u : String)
    (d : Int) (b : Bool) :
    eraseAssigned (setAssigned g u d b) = eraseAssigned g := by
  unfold eraseAssigned setAssigned
  exact map_updFirst u _ eraseRowAssigned g (fun row => by
    unfold eraseRowAssigned
    exact map_updFirst d _ eraseCellAssigned row (fun c => rfl))

theorem fillLoop_eraseAssigned (cap d : Int) (l : List String)
    (g : ScheduleGrid) (cnt : Int) :
    eraseAssigned (fillLoop cap d l g cnt) = eraseAssigned g := by
  induction l generalizing g cnt with
  | nil => rfl
  | cons u₁ rest ih =>
    simp only [fillLoop]
    cases hc : gridCell g u₁ d with
    | none => exact ih g cnt
    | some c =>
      by_cases hskip : (c.assigned || c.locked || c.requested_off) = true
      · simp only [hskip, if_true]
        exact ih g cnt
      · simp only [hskip, if_false, Bool.false_eq_true]
        split
        · exact eraseAssigned_setAssigned g u₁ d true
        · rw [ih _ _, eraseAssigned_setAssigned]

theorem removeLoop_eraseAssigned (cap d : Int) (l : List String)
    (g : ScheduleGrid) (cnt : Int) :
    eraseAssigned (removeLoop cap d l g cnt) = eraseAssigned g := by
  induction l generalizing g cnt with
  | nil => rfl
  | cons u₁ rest ih =>
    simp only [removeLoop]
    cases hc : gridCell g u₁ d with
    | none => exact ih g cnt
    | some c =>
      by_cases hl : c.locked = true
      · simp only [hl, if_true]
        exact ih g cnt
      · simp only [hl, if_false, Bool.false_eq_true]
        by_cases ha : c.assigned = true
        · simp only [ha, if_true]
          split
          · exact eraseAssigned_setAssigned g u₁ d false
          · rw [ih _ _, eraseAssigned_setAssigned]
        · simp only [ha, if_false, Bool.false_eq_true]
          exact ih g cnt

theorem optimizeDay_eraseAssigned (cap : Int) (us : List String)
    (g : ScheduleGrid) (d : Int) :
    eraseAssigned (optimizeDay cap us g d) = eraseAssigned g := by
  unfold optimizeDay
  split
  · exact fillLoop_eraseAssigned _ _ _ _ _
  · split
    · exact removeLoop_eraseAssigned _ _ _ _ _
    · rfl

theorem optimizeSchedule_eraseAssigned (p : WorkPeriod)
    (us : List String) (g : ScheduleGrid) :
    eraseAssigned (optimizeSchedule p us g) = eraseAssigned g := by
  unfold optimizeSchedule
  generalize periodDates p = ds
  induction ds generalizing g with
  | nil => rfl
  | cons d₁ rest ih =>
    rw [List.foldl_cons, ih, optimizeDay_eraseAssigned]

theorem gridCell_eraseAssigned (g : ScheduleGrid) (u : String) (d : Int) :
    gridCell (eraseAssigned g) u d =
      (gridCell g u d).map eraseCellAssigned := by
  unfold gridCell eraseAssigned
  rw [getFirst_map]
  cases getFirst u g with
  | none => rfl
  | some row =>
    show getFirst d (eraseRowAssigned row) =
      (getFirst d row).map eraseCellAssigned
    unfold eraseRowAssigned
    exact getFirst_map d eraseCellAssigned row

theorem eraseRowAssigned_keys (row : GridRow) :
    (eraseRowAssigned row).map Prod.fst = row.map Prod.fst := by
  unfold eraseRowAssigned
  rw [List.map_map]
  rfl

theorem eraseAssigned_keys (g : ScheduleGrid) :
    (eraseAssigned g).map Prod.fst = g.map Prod.fst := by
  unfold eraseAssigned
  rw [List.map_map]
  rfl

theorem optionRow_keys (o : Option GridRow) :
    (o.map eraseRowAssigned).map (fun row => row.map Prod.fst) =
      o.map (fun row => row.map Prod.fst) := by
  cases o with
  | none => rfl
  | some row => simp [eraseRowAssigned_keys]

theorem optionCell_fields (o : Option CellData) :
    (o.map eraseCellAssigned).map
        (fun c => (c.id, c.locked, c.requested_off)) =
      o.map (fun c => (c.id, c.locked, c.requested_off)) := by
  cases o <;> rfl

/-- C5: Frame property — the grid returned by `optimizeSchedule` has the
same user keys and per-user date keys as the input, and for every cell the
`id` (recordId), `locked` and `requested_off` fields equal those of the
input cell; only `assigned` flags may differ, for every period, user list
and grid. -/
theorem optimizeSchedule_frame (p : WorkPeriod) (us : List String)
    (g : ScheduleGrid) :
    (optimizeSchedule p us g).map Prod.fst = g.map Prod.fst ∧
    (∀ u : String,
      (getFirst u (optimizeSchedule p us g)).map
          (fun row => row.map Prod.fst) =
        (getFirst u g).map (fun row => row.map Prod.fst)) ∧
    (∀ (u : String) (d : Int),
      (gridCell (optimizeSchedule p us g) u d).map
          (fun c => (c.id, c.locked, c.requested_off)) =
        (gridCell g u d).map (fun c => (c.id, c.locked, c.requested_off))) := by
  have E := optimizeSchedule_eraseAssigned p us g
  refine ⟨?_, ?_, ?_⟩
  · rw [← eraseAssigned_keys (optimizeSchedule p us g), E, eraseAssigned_keys]
  · intro u
    have h1 : (getFirst u (optimizeSchedule p us g)).map eraseRowAssigned =
        (getFirst u g).map eraseRowAssigned := by
      have := congrArg (getFirst u) E
      unfold eraseAssigned at this
      rwa [getFirst_map, getFirst_map] at this
    have h2 := congrArg (Option.map (fun row : GridRow => row.map Prod.fst)) h1
    rwa [optionRow_keys, optionRow_keys] at h2
  · intro u d
    have h1 : (gridCell (optimizeSchedule p us g) u d).map eraseCellAssigned =
        (gridCell g u d).map eraseCellAssigned := by
      rw [← gridCell_eraseAssigned, ← gridCell_eraseAssigned, E]
    have h2 := congrArg
      (Option.map (fun c : CellData => (c.id, c.locked, c.requested_off))) h1
    rwa [optionCell_fields, optionCell_fields] at h2

/-! ### Fixed point and concrete scenario -/

theorem optimizeDay_at_capacity (cap : Int) (us : List String)
    (g : ScheduleGrid) (d : Int)
    (h : (countAssignedForDate g us d : Int) = cap) :
    optimizeDay cap us g d = g := by
  unfold optimizeDay
  rw [h]
  simp

/-- C7: Idempotence at fixed point — when every day of the period already
has exactly `neededCapacity` assigned users, `optimizeSchedule` returns
the grid unchanged; in particular running the optimizer twice equals
running it once whenever the first run reaches capacity on every day. -/
theorem optimizeSchedule_fixed_point (p : WorkPeriod) (us : List String)
    (g : ScheduleGrid)
    (h : ∀ d ∈ periodDates p,
      (countAssignedForDate g us d : Int) = p.needed_capacity) :
    optimizeSchedule p us g = g := by
  unfold optimizeSchedule
  generalize hds : periodDates p = ds
  rw [hds] at h
  clear hds
  induction ds with
  | nil => rfl
  | cons d₁ rest ih =>
    rw [List.foldl_cons,
      optimizeDay_at_capacity _ _ _ _ (h d₁ (List.mem_cons_self d₁ rest))]
    exact ih (fun d hd => h d (List.mem_cons_of_mem _ hd))

/-- C7 witness: a one-day period at exact capacity is left unchanged. -/
theorem optimizeSchedule_fixed_point_witness :
    optimizeSchedule ⟨0, 0, 1⟩ ["A"]
        [("A", [((0 : Int), ⟨none, true, false, false⟩)])] =
      [("A", [((0 : Int), ⟨none, true, false, false⟩)])] :=
  optimizeSchedule_fixed_point ⟨0, 0, 1⟩ ["A"]
    [("A", [((0 : Int), ⟨none, true, false, false⟩)])] (by decide)

/-- C6: Concrete two-day scenario — period 2024-01-01 to 2024-01-02,
`neededCapacity = 1`, users A, B, C with all cells initially unassigned,
unlocked and not requested off: the optimizer assigns A on day 1 only
(tie broken by input order) and B on day 2 only (ascending workload over
the evolving grid), and never assigns C. -/
theorem optimizeSchedule_concrete_two_days :
    (cellAssigned
        (optimizeSchedule
          ⟨daysFromCivil 2024 1 1, daysFromCivil 2024 1 2, 1⟩ ["A", "B", "C"]
          (initializeScheduleGrid
            ⟨daysFromCivil 2024 1 1, daysFromCivil 2024 1 2, 1⟩
            ["A", "B", "C"] []))
        "A" (daysFromCivil 2024 1 1) = true) ∧
    (cellAssigned
        (optimizeSchedule
          ⟨daysFromCivil 2024 1 1, daysFromCivil 2024 1 2, 1⟩ ["A", "B", "C"]
          (initializeScheduleGrid
            ⟨daysFromCivil 2024 1 1, daysFromCivil 2024 1 2, 1⟩
            ["A", "B", "C"] []))
        "A" (daysFromCivil 2024 1 2) = false) ∧
    (cellAssigned
        (optimizeSchedule
          ⟨daysFromCivil 2024 1 1, daysFromCivil 2024 1 2, 1⟩ ["A", "B", "C"]
          (initializeScheduleGrid
            ⟨daysFromCivil 2024 1 1, daysFromCivil 2024 1 2, 1⟩
            ["A", "B", "C"] []))
        "B" (daysFromCivil 2024 1 1) = false) ∧
    (cellAssigned
        (optimizeSchedule
          ⟨daysFromCivil 2024 1 1, daysFromCivil 2024 1 2, 1⟩ ["A", "B", "C"]
          (initializeScheduleGrid
            ⟨daysFromCivil 2024 1 1, daysFromCivil 2024 1 2, 1⟩
            ["A", "B", "C"] []))
        "B" (daysFromCivil 2024 1 2) = true) ∧
    (cellAssigned
        (optimizeSchedule
          ⟨daysFromCivil 2024 1 1, daysFromCivil 2024 1 2, 1⟩ ["A", "B", "C"]
          (initializeScheduleGrid
            ⟨daysFromCivil 2024 1 1, daysFromCivil 2024 1 2, 1⟩
            ["A", "B", "C"] []))
        "C" (daysFromCivil 2024 1 1) = false) ∧
    (cellAssigned
        (optimizeSchedule
          ⟨daysFromCivil 2024 1 1, daysFromCivil 2024 1 2, 1⟩ ["A", "B", "C"]
          (initializeScheduleGrid
            ⟨daysFromCivil 2024 1 1, daysFromCivil 2024 1 2, 1⟩
            ["A", "B", "C"] []))
        "C" (daysFromCivil 2024 1 2) = false) := by
  decide

/-! ### Input validation behaviour -/

/-- The error taxonomy of the specification (section 7). -/
inductive ScheduleError where
  | invalidInput : ScheduleError
deriving DecidableEq, Repr

/-- `optimizeSchedule` as a fallible computation.  The TypeScript body
performs no input validation and has no throwing statement: with
`end_date < start_date` the day loop runs zero times and the function
returns the copied grid, so the embedding always succeeds. -/
def optimizeScheduleE (p : WorkPeriod) (us : List String)
    (g : ScheduleGrid) : Except ScheduleError ScheduleGrid :=
  Except.ok (optimizeSchedule p us g)

/-- `initializeScheduleGrid` as a fallible computation.  The TypeScript
body performs no input validation and has no throwing statement: with
`end_date < start_date` every user gets an empty row and the record
overlay finds no cell, so the embedding always succeeds. -/
def initializeScheduleGridE (p : WorkPeriod) (us : List String)
    (shifts : List ShiftRecord) : Except ScheduleError ScheduleGrid :=
  Except.ok (initializeScheduleGrid p us shifts)

/-- The C4 claim at a period, following the specification's words: a
period whose end date precedes its start date must make both the grid
builder and the optimizer return an `InvalidInput` error, never a grid. -/
def specFailsFastOn (p : WorkPeriod) : Prop :=
  p.end_date < p.start_date →
    (∀ us g, ∃ e, optimizeScheduleE p us g = Except.error e) ∧
    (∀ us shifts, ∃ e, initializeScheduleGridE p us shifts = Except.error e)

theorem periodDates_empty (p : WorkPeriod)
    (hd : p.end_date < p.start_date) : periodDates p = [] := by
  unfold periodDates
  have h0 : (p.end_date - p.start_date + 1).toNat = 0 :=
    Int.toNat_of_nonpos (by omega)
  rw [h0]
  rfl

theorem applyShift_empty_rows (g : ScheduleGrid) (s : ShiftRecord)
    (h : ∀ u, getFirst u g = none ∨ getFirst u g = some []) :
    applyShift g s = g := by
  have hnone : gridCell g s.user_id s.shift_date = none := by
    unfold gridCell
    rcases h s.user_id with h0 | h0 <;> rw [h0] <;> rfl
  unfold applyShift
  rw [hnone]

theorem foldl_applyShift_empty (shifts : List ShiftRecord)
    (g : ScheduleGrid)
    (h : ∀ u, getFirst u g = none ∨ getFirst u g = some []) :
    shifts.foldl applyShift g = g := by
  induction shifts with
  | nil => rfl
  | cons s rest ih =>
    rw [List.foldl_cons, applyShift_empty_rows g s h]
    exact ih

theorem getFirst_map_empty_rows (us : List String) (u : String) :
    getFirst u (us.map (fun v => (v, ([] : GridRow)))) = none ∨
      getFirst u (us.map (fun v => (v, ([] : GridRow)))) = some [] := by
  induction us with
  | nil => exact Or.inl rfl
  | cons v rest ih =>
    by_cases hv : v = u
    · right
      simp [getFirst, hv]
    · simpa [getFirst, hv] using ih

/-- C4 counterexample: at the concrete malformed period with start day 1
and end day 0 the claim fails — neither function errors; both return
ordinary grids. -/
theorem specFailsFast_counterexample : ¬ specFailsFastOn ⟨1, 0, 1⟩ := by
  intro h
  obtain ⟨h1, -⟩ := h (by decide)
  obtain ⟨e, he⟩ := h1 [] []
  simp [optimizeScheduleE] at he

/-- C4 amended: the source performs no input validation — for a period
whose end date precedes its start date, neither function raises an error:
`optimizeSchedule` returns the input grid unchanged and
`initializeScheduleGrid` returns a grid with one empty row per user
(both fallible embeddings return `Except.ok`). -/
theorem malformed_period_returns_silently (p : WorkPeriod)
    (hd : p.end_date < p.start_date) :
    (∀ us g, optimizeScheduleE p us g = Except.ok g) ∧
    (∀ us shifts, initializeScheduleGridE p us shifts =
      Except.ok (us.map (fun u => (u, [])))) := by
  have hpd := periodDates_empty p hd
  constructor
  · intro us g
    unfold optimizeScheduleE optimizeSchedule
    rw [hpd]
    rfl
  · intro us shifts
    unfold initializeScheduleGridE initializeScheduleGrid
    rw [hpd]
    simp only [List.map_nil]
    rw [foldl_applyShift_empty shifts _ (getFirst_map_empty_rows us)]

/-- C4 amended witness: the behaviour at the concrete malformed period. -/
theorem malformed_period_returns_silently_witness :
    optimizeScheduleE ⟨1, 0, 1⟩ ["A"]
        [("A", [((0 : Int), ⟨none, true, false, false⟩)])] =
      Except.ok [("A", [((0 : Int), ⟨none, true, false, false⟩)])] ∧
    initializeScheduleGridE ⟨1, 0, 1⟩ ["A"] [] =
      Except.ok [("A", [])] :=
  ⟨(malformed_period_returns_silently ⟨1, 0, 1⟩ (by decide)).1 ["A"]
      [("A", [((0 : Int), ⟨none, true, false, false⟩)])],
    (malformed_period_returns_silently ⟨1, 0, 1⟩ (by decide)).2 ["A"] []⟩

/-! ### Grid builder postcondition -/

/-- The cell written for a shift record (scheduleUtils.ts lines 34-39). -/
def shiftCell (s : ShiftRecord) : CellData :=
  { id := some s.id, assigned := s.assigned, locked := s.locked,
    requested_off := s.requested_off }

/-- The first shift record matching a (user, date) pair. -/
def findShift (shifts : List ShiftRecord) (u : String) (d : Int) :
    Option ShiftRecord :=
  shifts.find? (fun s => s.user_id == u && s.shift_date == d)

theorem gridCell_updCell_self (g : ScheduleGrid) (u : String) (d : Int)
    (f : CellData → CellData) :
    gridCell (updFirst u (updFirst d f) g) u d = (gridCell g u d).map f := by
  unfold gridCell
  rw [getFirst_updFirst_self]
  cases getFirst u g with
  | none => rfl
  | some row => simp [getFirst_updFirst_self]

theorem gridCell_updCell_ne (g : ScheduleGrid) {u u' : String}
    {d d' : Int} (f : CellData → CellData) (h : u' ≠ u ∨ d' ≠ d) :
    gridCell (updFirst u (updFirst d f) g) u' d' = gridCell g u' d' := by
  unfold gridCell
  by_cases hu : u' = u
  · subst hu
    rcases h with h | h
    · exact absurd rfl h
    · rw [getFirst_updFirst_self]
      cases getFirst u' g with
      | none => rfl
      | some row => simp [getFirst_updFirst_ne _ _ h]
  · rw [getFirst_updFirst_ne _ _ hu]

theorem applyShift_cell_self (g : ScheduleGrid) (s : ShiftRecord) :
    gridCell (applyShift g s) s.user_id s.shift_date =
      (gridCell g s.user_id s.shift_date).map (fun _ => shiftCell s) := by
  unfold applyShift
  cases hc : gridCell g s.user_id s.shift_date with
  | none =>
    rw [hc]
    rfl
  | some c =>
    rw [gridCell_updCell_self, hc]
    rfl

theorem applyShift_cell_ne (g : ScheduleGrid) (s : ShiftRecord)
    {u : String} {d : Int} (h : u ≠ s.user_id ∨ d ≠ s.shift_date) :
    gridCell (applyShift g s) u d = gridCell g u d := by
  unfold applyShift
  cases hc : gridCell g s.user_id s.shift_date with
  | none => rfl
  | some c => exact gridCell_updCell_ne g _ h

theorem gridCell_foldl_applyShift (shifts : List ShiftRecord)
    (G : ScheduleGrid) (u : String) (d : Int)
    (hkeys : (shifts.map (fun s => (s.user_id, s.shift_date))).Nodup) :
    gridCell (shifts.foldl applyShift G) u d =
      (gridCell G u d).map
        (fun c => ((findShift shifts u d).map shiftCell).getD c) := by
  induction shifts generalizing G with
  | nil =>
    simp [findShift]
  | cons s rest ih =>
    rw [List.foldl_cons]
    by_cases hhit : (s.user_id == u && s.shift_date == d) = true
    · have huv : s.user_id = u ∧ s.shift_date = d := by
        simpa using hhit
      have hnorest : findShift rest u d = none := by
        apply List.find?_eq_none.mpr
        intro s' hs'
        intro hps'
        have hk : (s'.user_id, s'.shift_date) = (s.user_id, s.shift_date) := by
          have h2 : s'.user_id = u ∧ s'.shift_date = d := by simpa using hps'
          rw [h2.1, h2.2, huv.1, huv.2]
        have : (s.user_id, s.shift_date) ∈
            rest.map (fun s => (s.user_id, s.shift_date)) := by
          rw [← hk]
          exact List.mem_map_of_mem _ hs'
        exact (List.nodup_cons.mp hkeys).1 this
      rw [ih _ (List.nodup_cons.mp hkeys).2]
      have hself : gridCell (applyShift G s) u d =
          (gridCell G u d).map (fun _ => shiftCell s) := by
        rw [← huv.1, ← huv.2]
        exact applyShift_cell_self G s
      rw [hself]
      have hfind : findShift (s :: rest) u d = some s := by
        simp only [findShift, List.find?_cons, hhit]
      rw [hfind, hnorest]
      cases gridCell G u d <;> rfl
    · have hne : u ≠ s.user_id ∨ d ≠ s.shift_date := by
        by_contra hcon
        push_neg at hcon
        apply hhit
        simp [hcon.1, hcon.2]
      rw [ih _ (List.nodup_cons.mp hkeys).2, applyShift_cell_ne G s hne]
      have hhit' : (s.user_id == u && s.shift_date == d) = false := by
        revert hhit
        cases s.user_id == u && s.shift_date == d <;> simp
      have hfind : findShift (s :: rest) u d = findShift rest u d := by
        simp only [findShift, List.find?_cons, hhit']
      rw [hfind]

theorem getFirst_map_const {α β : Type} [DecidableEq α] (k : α) (c : β)
    (l : List α) :
    getFirst k (l.map (fun x => (x, c))) = if k ∈ l then some c else none := by
  induction l with
  | nil => rfl
  | cons x rest ih =>
    by_cases hx : x = k
    · subst hx
      simp [getFirst]
    · have hk : ¬ k = x := fun h => hx h.symm
      simp [getFirst, hx, hk, ih]

theorem gridCell_base (p : WorkPeriod) (us : List String) (u : String)
    (d : Int) :
    gridCell
        (us.map (fun v =>
          (v, (periodDates p).map (fun d0 => (d0, defaultCell))))) u d =
      if u ∈ us ∧ d ∈ periodDates p then some defaultCell else none := by
  unfold gridCell
  rw [getFirst_map_const]
  by_cases hu : u ∈ us
  · rw [if_pos hu, Option.some_bind, getFirst_map_const]
    by_cases hd : d ∈ periodDates p
    · rw [if_pos hd, if_pos ⟨hu, hd⟩]
    · rw [if_neg hd, if_neg (fun h => hd h.2)]
  · rw [if_neg hu, Option.none_bind, if_neg (fun h => hu h.1)]

/-- C8: buildGrid postcondition — `initializeScheduleGrid` yields a cell
exactly for the pairs (user in the list, date in the period's inclusive
range); the cell is the default cell unless a shift record matches the
(user, date) pair, in which case it carries that record's id, assigned,
locked and requested_off values; records outside the grid are ignored.
Records are assumed key-distinct, as the persistent store keys them by
(user, date). -/
theorem initializeScheduleGrid_postcondition (p : WorkPeriod)
    (us : List String) (shifts : List ShiftRecord)
    (hkeys : (shifts.map (fun s => (s.user_id, s.shift_date))).Nodup) :
    ∀ (u : String) (d : Int),
      gridCell (initializeScheduleGrid p us shifts) u d =
        if u ∈ us ∧ d ∈ periodDates p then
          some (((findShift shifts u d).map shiftCell).getD defaultCell)
        else none := by
  intro u d
  unfold initializeScheduleGrid
  rw [gridCell_foldl_applyShift _ _ _ _ hkeys, gridCell_base]
  by_cases h : u ∈ us ∧ d ∈ periodDates p
  · rw [if_pos h, if_pos h]
    rfl
  · rw [if_neg h, if_neg h]
    rfl

/-- C8 witness: one user, one day, one matching record plus one
out-of-range record. -/
theorem initializeScheduleGrid_postcondition_witness :
    gridCell
        (initializeScheduleGrid ⟨0, 0, 1⟩ ["A"]
          [⟨"r1", "A", 0, true, true, false⟩,
           ⟨"r2", "A", 5, true, false, false⟩]) "A" 0 =
      if ("A" ∈ ["A"] ∧ (0 : Int) ∈ periodDates ⟨0, 0, 1⟩) then
        some (((findShift
          [⟨"r1", "A", 0, true, true, false⟩,
           ⟨"r2", "A", 5, true, false, false⟩] "A" 0).map shiftCell).getD
            defaultCell)
      else none :=
  initializeScheduleGrid_postcondition ⟨0, 0, 1⟩ ["A"]
    [⟨"r1", "A", 0, true, true, false⟩, ⟨"r2", "A", 5, true, false, false⟩]
    (by decide) "A" 0

/-! ### Diff adapter (runOptimizer in ScheduleGrid.tsx) -/

/-- What the emitted change does at the store: update the existing record
(`updateShiftMutation` with the old cell's id) or create a new one
(`createShiftMutation`). -/
inductive ChangeAction where
  | update (shiftId : String) : ChangeAction
  | create : ChangeAction
deriving DecidableEq, Repr

/-- One emitted change: the targeted (user, date) cell, the store action,
and the field values pushed (taken from the new grid). -/
structure ChangeRecord where
  user_id : String
  shift_date : Int
  action : ChangeAction
  assigned : Bool
  locked : Bool
  requested_off : Bool
deriving DecidableEq, Repr

/-- The change condition of runOptimizer (ScheduleGrid.tsx lines 244-248):
at least one of the three fields differs. -/
def cellsDiffer (oc nc : CellData) : Bool :=
  oc.assigned != nc.assigned || oc.locked != nc.locked ||
    oc.requested_off != nc.requested_off

/-- The change record pushed by runOptimizer for a changed cell: an update
of the old cell's record when it has an id, otherwise a creation; field
values from the new cell. -/
def mkChange (u : String) (d : Int) (oc nc : CellData) : ChangeRecord :=
  { user_id := u, shift_date := d,
    action := match oc.id with
              | some i => ChangeAction.update i
              | none => ChangeAction.create,
    assigned := nc.assigned, locked := nc.locked,
    requested_off := nc.requested_off }

/-- The diff step of runOptimizer (ScheduleGrid.tsx lines 231-272): for
each user with a row in the new grid and each date of the period, skip
when the old cell or the new cell is missing, emit a change record
exactly when the cells differ. -/
def diffChanges (userIds : List String) (dates : List Int)
    (oldGrid newGrid : ScheduleGrid) : List ChangeRecord :=
  userIds.bind (fun u =>
    match getFirst u newGrid with
    | none => []
    | some _ =>
      dates.bind (fun d =>
        match gridCell oldGrid u d, gridCell newGrid u d with
        | some oc, some nc =>
          if cellsDiffer oc nc then [mkChange u d oc nc] else []
        | _, _ => []))

theorem mem_diffChanges (userIds : List String) (dates : List Int)
    (oldGrid newGrid : ScheduleGrid) (ch : ChangeRecord) :
    ch ∈ diffChanges userIds dates oldGrid newGrid ↔
      ∃ u ∈ userIds, ∃ d ∈ dates, ∃ oc nc,
        gridCell oldGrid u d = some oc ∧ gridCell newGrid u d = some nc ∧
        cellsDiffer oc nc = true ∧ ch = mkChange u d oc nc := by
  unfold diffChanges
  rw [List.mem_bind]
  constructor
  · rintro ⟨u, hu, hch⟩
    split at hch
    · cases hch
    · rw [List.mem_bind] at hch
      obtain ⟨d, hd, hch⟩ := hch
      split at hch
      · rename_i oc nc hoc hnc
        split at hch
        · rename_i hdiff
          exact ⟨u, hu, d, hd, oc, nc, hoc, hnc, hdiff,
            List.mem_singleton.mp hch⟩
        · cases hch
      · cases hch
  · rintro ⟨u, hu, d, hd, oc, nc, hoc, hnc, hdiff, hch⟩
    refine ⟨u, hu, ?_⟩
    obtain ⟨row, hr⟩ : ∃ row, getFirst u newGrid = some row := by
      unfold gridCell at hnc
      cases hr0 : getFirst u newGrid with
      | none =>
        rw [hr0] at hnc
        cases hnc
      | some row => exact ⟨row, rfl⟩
    simp only [hr]
    rw [List.mem_bind]
    refine ⟨d, hd, ?_⟩
    simp only [hoc, hnc]
    rw [if_pos hdiff]
    exact List.mem_singleton.mpr hch

/-- C9: Diff emits iff changed — for a (user, date) pair iterated by the
diff with cells present in the old and new grid, a change targeting that
pair is emitted exactly when one of `assigned`, `locked`, `requested_off`
differs, and every emitted change for the pair carries the new cell's
three field values and updates the old cell's record when it has an id,
otherwise creates a new record. -/
theorem diffChanges_emits_iff_changed (userIds : List String)
    (dates : List Int) (oldGrid newGrid : ScheduleGrid) (u : String)
    (d : Int) (hu : u ∈ userIds) (hd : d ∈ dates) (oc nc : CellData)
    (hoc : gridCell oldGrid u d = some oc)
    (hnc : gridCell newGrid u d = some nc) :
    ((∃ ch ∈ diffChanges userIds dates oldGrid newGrid,
        ch.user_id = u ∧ ch.shift_date = d) ↔ cellsDiffer oc nc = true) ∧
    (∀ ch ∈ diffChanges userIds dates oldGrid newGrid,
      ch.user_id = u → ch.shift_date = d →
        ch.assigned = nc.assigned ∧ ch.locked = nc.locked ∧
        ch.requested_off = nc.requested_off ∧
        ch.action = (match oc.id with
                     | some i => ChangeAction.update i
                     | none => ChangeAction.create)) := by
  constructor
  · constructor
    · rintro ⟨ch, hmem, hchu, hchd⟩
      obtain ⟨u₁, -, d₁, -, oc₁, nc₁, hoc₁, hnc₁, hdiff₁, hch⟩ :=
        (mem_diffChanges userIds dates oldGrid newGrid ch).mp hmem
      have hu₁ : u₁ = u := by rw [hch] at hchu; exact hchu
      have hd₁ : d₁ = d := by rw [hch] at hchd; exact hchd
      rw [hu₁, hd₁] at hoc₁ hnc₁
      rw [hoc] at hoc₁
      rw [hnc] at hnc₁
      cases hoc₁
      cases hnc₁
      exact hdiff₁
    · intro hdiff
      exact ⟨mkChange u d oc nc,
        (mem_diffChanges userIds dates oldGrid newGrid _).mpr
          ⟨u, hu, d, hd, oc, nc, hoc, hnc, hdiff, rfl⟩, rfl, rfl⟩
  · intro ch hmem hchu hchd
    obtain ⟨u₁, -, d₁, -, oc₁, nc₁, hoc₁, hnc₁, -, hch⟩ :=
      (mem_diffChanges userIds dates oldGrid newGrid ch).mp hmem
    have hu₁ : u₁ = u := by rw [hch] at hchu; exact hchu
    have hd₁ : d₁ = d := by rw [hch] at hchd; exact hchd
    rw [hu₁, hd₁] at hoc₁ hnc₁
    rw [hoc] at hoc₁
    rw [hnc] at hnc₁
    cases hoc₁
    cases hnc₁
    rw [hch]
    exact ⟨rfl, rfl, rfl, rfl⟩

/-- C9 witness: an assigned-flag change on a cell with a record id is
emitted as an update with the new values. -/
theorem diffChanges_emits_iff_changed_witness :
    ((∃ ch ∈ diffChanges ["A"] [(0 : Int)]
        [("A", [((0 : Int), ⟨some "r1", false, false, false⟩)])]
        [("A", [((0 : Int), ⟨some "r1", true, false, false⟩)])],
        ch.user_id = "A" ∧ ch.shift_date = 0) ↔
      cellsDiffer ⟨some "r1", false, false, false⟩
        ⟨some "r1", true, false, false⟩ = true) ∧
    (∀ ch ∈ diffChanges ["A"] [(0 : Int)]
        [("A", [((0 : Int), ⟨some "r1", false, false, false⟩)])]
        [("A", [((0 : Int), ⟨some "r1", true, false, false⟩)])],
      ch.user_id = "A" → ch.shift_date = 0 →
        ch.assigned = (⟨some "r1", true, false, false⟩ : CellData).assigned ∧
        ch.locked = (⟨some "r1", true, false, false⟩ : CellData).locked ∧
        ch.requested_off =
          (⟨some "r1", true, false, false⟩ : CellData).requested_off ∧
        ch.action = (match (⟨some "r1", false, false, false⟩ : CellData).id with
                     | some i => ChangeAction.update i
                     | none => ChangeAction.create)) :=
  diffChanges_emits_iff_changed ["A"] [(0 : Int)]
    [("A", [((0 : Int), ⟨some "r1", false, false, false⟩)])]
    [("A", [((0 : Int), ⟨some "r1", true, false, false⟩)])]
    "A" 0 (by decide) (by decide)
    ⟨some "r1", false, false, false⟩ ⟨some "r1", true, false, false⟩
    (by decide) (by decide)

/-! ### Counting machinery for capacity convergence and bounds -/

/-- The cell at (user, date) can receive a new assignment in the filling
walk: present, not assigned, not locked, not requested off. -/
def fillable (g : ScheduleGrid) (u : String) (d : Int) : Bool :=
  match gridCell g u d with
  | some c => !c.assigned && !c.locked && !c.requested_off
  | none => false

/-- The cell at (user, date) can lose its assignment in the removal walk:
present, assigned and not locked. -/
def removable (g : ScheduleGrid) (u : String) (d : Int) : Bool :=
  match gridCell g u d with
  | some c => c.assigned && !c.locked
  | none => false

/-- Number of users of the list whose cell at the date is present and not
locked. -/
def nonLockedCount (g : ScheduleGrid) (users : List String) (d : Int) :
    Nat :=
  (users.filter (fun u =>
    match gridCell g u d with
    | some c => !c.locked
    | none => false)).length

/-- Number of users of the list whose cell at the date is present and
either already assigned or assignable (not locked and not requested
off). -/
def assignedOrAssignableCount (g : ScheduleGrid) (users : List String)
    (d : Int) : Nat :=
  (users.filter (fun u =>
    match gridCell g u d with
    | some c => c.assigned || (!c.locked && !c.requested_off)
    | none => false)).length

/-- Number of users of the list whose cell at the date is present,
assigned and locked (assignments the removal walk cannot touch). -/
def lockedAssignedCount (g : ScheduleGrid) (users : List String)
    (d : Int) : Nat :=
  (users.filter (fun u =>
    match gridCell g u d with
    | some c => c.assigned && c.locked
    | none => false)).length

theorem filter_length_flip {α : Type} (l : List α) (p q : α → Bool)
    (u : α) (hnd : l.Nodup) (hu : u ∈ l)
    (hpu : p u = false) (hqu : q u = true)
    (hsame : ∀ w ∈ l, w ≠ u → q w = p w) :
    (l.filter q).length = (l.filter p).length + 1 := by
  induction l with
  | nil => cases hu
  | cons v rest ih =>
    rw [List.nodup_cons] at hnd
    by_cases hv : v = u
    · subst hv
      have hfq : rest.filter q = rest.filter p := by
        apply List.filter_congr
        intro w hw
        exact hsame w (List.mem_cons_of_mem _ hw)
          (fun he => hnd.1 (he ▸ hw))
      simp [List.filter_cons, hpu, hqu, hfq]
    · have hu' : u ∈ rest := by
        rcases List.mem_cons.mp hu with h | h
        · exact absurd h.symm hv
        · exact h
      have ihr := ih hnd.2 hu'
        (fun w hw hwne => hsame w (List.mem_cons_of_mem _ hw) hwne)
      have hqp : q v = p v :=
        hsame v (List.mem_cons_self v rest) hv
      cases hpv : p v <;>
        simp [List.filter_cons, hpv, hqp ▸ hpv, ihr]

theorem countAssignedForDate_set_true (g : ScheduleGrid)
    (users : List String) (d : Int) (u : String) (c : CellData)
    (hndu : users.Nodup) (hu : u ∈ users)
    (hc : gridCell g u d = some c) (ha : c.assigned = false) :
    countAssignedForDate (setAssigned g u d true) users d =
      countAssignedForDate g users d + 1 := by
  unfold countAssignedForDate
  apply filter_length_flip users _ _ u hndu hu
  · unfold cellAssigned
    rw [hc]
    exact ha
  · exact cellAssigned_setAssigned_self g u d true c hc
  · intro w _ hwne
    exact cellAssigned_setAssigned_ne g true (Or.inl hwne)

theorem countAssignedForDate_set_false (g : ScheduleGrid)
    (users : List String) (d : Int) (u : String) (c : CellData)
    (hndu : users.Nodup) (hu : u ∈ users)
    (hc : gridCell g u d = some c) (ha : c.assigned = true) :
    countAssignedForDate g users d =
      countAssignedForDate (setAssigned g u d false) users d + 1 := by
  unfold countAssignedForDate
  apply filter_length_flip users _ _ u hndu hu
  · exact cellAssigned_setAssigned_self g u d false c hc
  · unfold cellAssigned
    rw [hc]
    exact ha
  · intro w _ hwne
    exact (cellAssigned_setAssigned_ne g false (Or.inl hwne)).symm

theorem fillLoop_count_eq_cap (cap d : Int) (users : List String)
    (hndu : users.Nodup) (l : List String) :
    l.Nodup → (∀ u ∈ l, u ∈ users) →
    ∀ (g : ScheduleGrid) (cnt : Int),
      cnt = (countAssignedForDate g users d : Int) →
      cnt < cap →
      cap ≤ cnt + ((l.filter (fun u => fillable g u d)).length : Int) →
      (countAssignedForDate (fillLoop cap d l g cnt) users d : Int) = cap := by
  induction l with
  | nil =>
    intro _ _ g cnt hcnt hlt hcap
    simp only [List.filter_nil, List.length_nil] at hcap
    omega
  | cons u rest ih =>
    intro hl hsub g cnt hcnt hlt hcap
    rw [List.nodup_cons] at hl
    have hsubr : ∀ w ∈ rest, w ∈ users :=
      fun w hw => hsub w (List.mem_cons_of_mem _ hw)
    simp only [fillLoop]
    cases hc : gridCell g u d with
    | none =>
      have hfil : fillable g u d = false := by
        unfold fillable
        rw [hc]
      refine ih hl.2 hsubr g cnt hcnt hlt ?_
      simpa [List.filter_cons, hfil] using hcap
    | some c =>
      by_cases hskip : (c.assigned || c.locked || c.requested_off) = true
      · have hfil : fillable g u d = false := by
          unfold fillable
          rw [hc]
          show (!c.assigned && !c.locked && !c.requested_off) = false
          revert hskip
          cases c.assigned <;> cases c.locked <;> cases c.requested_off <;>
            simp
        simp only [hskip, if_true]
        refine ih hl.2 hsubr g cnt hcnt hlt ?_
        simpa [List.filter_cons, hfil] using hcap
      · have hA : c.assigned = false := by
          revert hskip
          cases c.assigned <;> simp
        have hfil : fillable g u d = true := by
          unfold fillable
          rw [hc]
          show (!c.assigned && !c.locked && !c.requested_off) = true
          revert hskip
          cases c.assigned <;> cases c.locked <;> cases c.requested_off <;>
            simp
        have hcnt' : (countAssignedForDate (setAssigned g u d true)
            users d : Int) = cnt + 1 := by
          rw [countAssignedForDate_set_true g users d u c hndu
            (hsub u (List.mem_cons_self u rest)) hc hA]
          push_cast
          omega
        simp only [hskip, if_false, Bool.false_eq_true]
        split
        · rename_i hge
          rw [hcnt']
          omega
        · rename_i hnge
          refine ih hl.2 hsubr (setAssigned g u d true) (cnt + 1)
            hcnt'.symm (by omega) ?_
          have hfr : rest.filter
              (fun w => fillable (setAssigned g u d true) w d) =
              rest.filter (fun w => fillable g w d) := by
            apply List.filter_congr
            intro w hw
            have hwne : w ≠ u := fun he => hl.1 (he ▸ hw)
            unfold fillable
            rw [gridCell_setAssigned_ne g true (Or.inl hwne)]
          rw [hfr]
          simp only [List.filter_cons, hfil, if_true, List.length_cons]
            at hcap
          push_cast at hcap ⊢
          omega

theorem removeLoop_count_eq_cap (cap d : Int) (users : List String)
    (hndu : users.Nodup) (l : List String) :
    l.Nodup → (∀ u ∈ l, u ∈ users) →
    ∀ (g : ScheduleGrid) (cnt : Int),
      cnt = (countAssignedForDate g users d : Int) →
      cap < cnt →
      cnt - ((l.filter (fun u => removable g u d)).length : Int) ≤ cap →
      (countAssignedForDate (removeLoop cap d l g cnt) users d : Int) =
        cap := by
  induction l with
  | nil =>
    intro _ _ g cnt hcnt hlt hcap
    simp only [List.filter_nil, List.length_nil] at hcap
    omega
  | cons u rest ih =>
    intro hl hsub g cnt hcnt hlt hcap
    rw [List.nodup_cons] at hl
    have hsubr : ∀ w ∈ rest, w ∈ users :=
      fun w hw => hsub w (List.mem_cons_of_mem _ hw)
    simp only [removeLoop]
    cases hc : gridCell g u d with
    | none =>
      have hrem : removable g u d = false := by
        unfold removable
        rw [hc]
      refine ih hl.2 hsubr g cnt hcnt hlt ?_
      simpa [List.filter_cons, hrem] using hcap
    | some c =>
      by_cases hL : c.locked = true
      · have hrem : removable g u d = false := by
          unfold removable
          rw [hc]
          show (c.assigned && !c.locked) = false
          rw [hL]
          simp
        simp only [hL, if_true]
        refine ih hl.2 hsubr g cnt hcnt hlt ?_
        simpa [List.filter_cons, hrem] using hcap
      · simp only [hL, if_false, Bool.false_eq_true]
        by_cases hA : c.assigned = true
        · have hrem : removable g u d = true := by
            unfold removable
            rw [hc]
            show (c.assigned && !c.locked) = true
            rw [hA]
            revert hL
            cases c.locked <;> simp
          have hcnt' : (countAssignedForDate (setAssigned g u d false)
              users d : Int) = cnt - 1 := by
            have := countAssignedForDate_set_false g users d u c hndu
              (hsub u (List.mem_cons_self u rest)) hc hA
            omega
          simp only [hA, if_true]
          split
          · rename_i hle
            rw [hcnt']
            omega
          · rename_i hnle
            refine ih hl.2 hsubr (setAssigned g u d false) (cnt - 1)
              hcnt'.symm (by omega) ?_
            have hfr : rest.filter
                (fun w => removable (setAssigned g u d false) w d) =
                rest.filter (fun w => removable g w d) := by
              apply List.filter_congr
              intro w hw
              have hwne : w ≠ u := fun he => hl.1 (he ▸ hw)
              unfold removable
              rw [gridCell_setAssigned_ne g false (Or.inl hwne)]
            rw [hfr]
            simp only [List.filter_cons, hrem, if_true, List.length_cons]
              at hcap
            push_cast at hcap ⊢
            omega
        · have hrem : removable g u d = false := by
            unfold removable
            rw [hc]
            show (c.assigned && !c.locked) = false
            revert hA
            cases c.assigned <;> simp
          simp only [hA, if_false, Bool.false_eq_true]
          refine ih hl.2 hsubr g cnt hcnt hlt ?_
          simpa [List.filter_cons, hrem] using hcap

theorem fillLoop_count_bounds (cap d : Int) (users : List String)
    (hndu : users.Nodup) (l : List String) :
    l.Nodup → (∀ u ∈ l, u ∈ users) →
    ∀ (g : ScheduleGrid) (cnt : Int),
      cnt = (countAssignedForDate g users d : Int) →
      cnt < cap →
      cnt ≤ (countAssignedForDate (fillLoop cap d l g cnt) users d : Int) ∧
      (countAssignedForDate (fillLoop cap d l g cnt) users d : Int) ≤
        cap := by
  induction l with
  | nil =>
    intro _ _ g cnt hcnt hlt
    simp only [fillLoop]
    omega
  | cons u rest ih =>
    intro hl hsub g cnt hcnt hlt
    rw [List.nodup_cons] at hl
    have hsubr : ∀ w ∈ rest, w ∈ users :=
      fun w hw => hsub w (List.mem_cons_of_mem _ hw)
    simp only [fillLoop]
    cases hc : gridCell g u d with
    | none => exact ih hl.2 hsubr g cnt hcnt hlt
    | some c =>
      by_cases hskip : (c.assigned || c.locked || c.requested_off) = true
      · simp only [hskip, if_true]
        exact ih hl.2 hsubr g cnt hcnt hlt
      · have hA : c.assigned = false := by
          revert hskip
          cases c.assigned <;> simp
        have hcnt' : (countAssignedForDate (setAssigned g u d true)
            users d : Int) = cnt + 1 := by
          rw [countAssignedForDate_set_true g users d u c hndu
            (hsub u (List.mem_cons_self u rest)) hc hA]
          push_cast
          omega
        simp only [hskip, if_false, Bool.false_eq_true]
        split
        · rename_i hge
          rw [hcnt']
          omega
        · rename_i hnge
          have hb := ih hl.2 hsubr (setAssigned g u d true) (cnt + 1)
            hcnt'.symm (by omega)
          omega

theorem removeLoop_count_bounds (cap d : Int) (users : List String)
    (hndu : users.Nodup) (l : List String) :
    l.Nodup → (∀ u ∈ l, u ∈ users) →
    ∀ (g : ScheduleGrid) (cnt : Int),
      cnt = (countAssignedForDate g users d : Int) →
      cap < cnt →
      cap ≤ (countAssignedForDate (removeLoop cap d l g cnt) users d : Int) ∧
      (countAssignedForDate (removeLoop cap d l g cnt) users d : Int) ≤
        cnt := by
  induction l with
  | nil =>
    intro _ _ g cnt hcnt hlt
    simp only [removeLoop]
    omega
  | cons u rest ih =>
    intro hl hsub g cnt hcnt hlt
    rw [List.nodup_cons] at hl
    have hsubr : ∀ w ∈ rest, w ∈ users :=
      fun w hw => hsub w (List.mem_cons_of_mem _ hw)
    simp only [removeLoop]
    cases hc : gridCell g u d with
    | none => exact ih hl.2 hsubr g cnt hcnt hlt
    | some c =>
      by_cases hL : c.locked = true
      · simp only [hL, if_true]
        exact ih hl.2 hsubr g cnt hcnt hlt
      · simp only [hL, if_false, Bool.false_eq_true]
        by_cases hA : c.assigned = true
        · have hcnt' : (countAssignedForDate (setAssigned g u d false)
              users d : Int) = cnt - 1 := by
            have := countAssignedForDate_set_false g users d u c hndu
              (hsub u (List.mem_cons_self u rest)) hc hA
            omega
          simp only [hA, if_true]
          split
          · rename_i hle
            rw [hcnt']
            omega
          · rename_i hnle
            have hb := ih hl.2 hsubr (setAssigned g u d false) (cnt - 1)
              hcnt'.symm (by omega)
            omega
        · simp only [hA, if_false, Bool.false_eq_true]
          exact ih hl.2 hsubr g cnt hcnt hlt

theorem filter_length_add_split {α : Type} (l : List α) (p q r : α → Bool)
    (hdisj : ∀ a ∈ l, ¬(p a = true ∧ q a = true))
    (hunion : ∀ a ∈ l, r a = true ↔ (p a = true ∨ q a = true)) :
    (l.filter p).length + (l.filter q).length = (l.filter r).length := by
  induction l with
  | nil => rfl
  | cons a rest ih =>
    have ihr := ih (fun b hb => hdisj b (List.mem_cons_of_mem _ hb))
      (fun b hb => hunion b (List.mem_cons_of_mem _ hb))
    have hd := hdisj a (List.mem_cons_self a rest)
    have hu := hunion a (List.mem_cons_self a rest)
    by_cases hpa : p a = true
    · have hqa : q a = false := by
        cases hqb : q a
        · rfl
        · exact absurd ⟨hpa, hqb⟩ hd
      have hra : r a = true := hu.mpr (Or.inl hpa)
      simp only [List.filter_cons, hpa, hqa, hra, eq_self_iff_true,
        if_true, Bool.false_eq_true, if_false, List.length_cons]
      omega
    · have hpa' : p a = false := by
        revert hpa
        cases p a <;> simp
      by_cases hqa : q a = true
      · have hra : r a = true := hu.mpr (Or.inr hqa)
        simp only [List.filter_cons, hpa', hqa, hra, eq_self_iff_true,
          if_true, Bool.false_eq_true, if_false, List.length_cons]
        omega
      · have hqa' : q a = false := by
          revert hqa
          cases q a <;> simp
        have hra : r a = false := by
          cases hrb : r a
          · rfl
          · rcases hu.mp hrb with h | h
            · rw [hpa'] at h
              cases h
            · rw [hqa'] at h
              cases h
        simp only [List.filter_cons, hpa', hqa', hra, Bool.false_eq_true,
          if_false]
        omega

theorem count_add_fillable (g : ScheduleGrid) (users : List String)
    (d : Int) :
    countAssignedForDate g users d +
        (users.filter (fun u => fillable g u d)).length =
      assignedOrAssignableCount g users d := by
  unfold countAssignedForDate assignedOrAssignableCount
  apply filter_length_add_split
  · intro a _
    rintro ⟨h1, h2⟩
    unfold cellAssigned at h1
    unfold fillable at h2
    cases hc : gridCell g a d with
    | none =>
      rw [hc] at h1
      simp at h1
    | some c =>
      rw [hc] at h1 h2
      obtain ⟨cid, cA, cL, cR⟩ := c
      revert h1 h2
      cases cA <;> cases cL <;> cases cR <;> simp
  · intro a _
    unfold cellAssigned fillable
    cases gridCell g a d with
    | none => simp
    | some c =>
      obtain ⟨cid, cA, cL, cR⟩ := c
      cases cA <;> cases cL <;> cases cR <;> simp

theorem lockedAssigned_add_removable (g : ScheduleGrid)
    (users : List String) (d : Int) :
    lockedAssignedCount g users d +
        (users.filter (fun u => removable g u d)).length =
      countAssignedForDate g users d := by
  unfold countAssignedForDate lockedAssignedCount
  apply filter_length_add_split
  · intro a _
    rintro ⟨h1, h2⟩
    unfold removable at h2
    cases hc : gridCell g a d with
    | none =>
      rw [hc] at h1
      simp at h1
    | some c =>
      rw [hc] at h1 h2
      obtain ⟨cid, cA, cL, cR⟩ := c
      revert h1 h2
      cases cA <;> cases cL <;> simp
  · intro a _
    unfold cellAssigned removable
    cases gridCell g a d with
    | none => simp
    | some c =>
      obtain ⟨cid, cA, cL, cR⟩ := c
      cases cA <;> cases cL <;> simp

theorem countAssignedForDate_congr (g g' : ScheduleGrid)
    (users : List String) (d : Int)
    (h : ∀ u, gridCell g' u d = gridCell g u d) :
    countAssignedForDate g' users d = countAssignedForDate g users d := by
  unfold countAssignedForDate
  congr 1
  apply List.filter_congr
  intro u _
  unfold cellAssigned
  rw [h u]

theorem assignedOrAssignableCount_congr (g g' : ScheduleGrid)
    (users : List String) (d : Int)
    (h : ∀ u, gridCell g' u d = gridCell g u d) :
    assignedOrAssignableCount g' users d =
      assignedOrAssignableCount g users d := by
  unfold assignedOrAssignableCount
  congr 1
  apply List.filter_congr
  intro u _
  rw [h u]

theorem lockedAssignedCount_congr (g g' : ScheduleGrid)
    (users : List String) (d : Int)
    (h : ∀ u, gridCell g' u d = gridCell g u d) :
    lockedAssignedCount g' users d = lockedAssignedCount g users d := by
  unfold lockedAssignedCount
  congr 1
  apply List.filter_congr
  intro u _
  rw [h u]

theorem periodDates_nodup (p : WorkPeriod) : (periodDates p).Nodup := by
  unfold periodDates
  have hinj : Function.Injective (fun i : Nat => p.start_date + (i : Int)) := by
    intro a b hab
    have h2 : p.start_date + (a : Int) = p.start_date + (b : Int) := hab
    omega
  exact (List.nodup_range _).map hinj

theorem optimizeDay_count_eq_cap (cap : Int) (users : List String)
    (g : ScheduleGrid) (d : Int) (hndu : users.Nodup)
    (hfeas : cap ≤ (assignedOrAssignableCount g users d : Int))
    (hlock : (lockedAssignedCount g users d : Int) ≤ cap) :
    (countAssignedForDate (optimizeDay cap users g d) users d : Int) =
      cap := by
  unfold optimizeDay
  split
  · rename_i hlt
    have hperm := List.perm_insertionSort
      (fun a b => totalAssignments g a ≤ totalAssignments g b) users
    refine fillLoop_count_eq_cap cap d users hndu _
      (hperm.nodup_iff.mpr hndu) (fun u hu => hperm.mem_iff.mp hu) g _
      rfl hlt ?_
    have hflen : ((users.insertionSort
        (fun a b => totalAssignments g a ≤ totalAssignments g b)).filter
          (fun u => fillable g u d)).length =
        (users.filter (fun u => fillable g u d)).length :=
      (hperm.filter _).length_eq
    rw [hflen]
    have hsplit := count_add_fillable g users d
    omega
  · split
    · rename_i hnlt hgt
      have hperm := List.perm_insertionSort
        (fun a b => totalAssignments g b ≤ totalAssignments g a) users
      refine removeLoop_count_eq_cap cap d users hndu _
        (hperm.nodup_iff.mpr hndu) (fun u hu => hperm.mem_iff.mp hu) g _
        rfl hgt ?_
      have hrlen : ((users.insertionSort
          (fun a b => totalAssignments g b ≤ totalAssignments g a)).filter
            (fun u => removable g u d)).length =
          (users.filter (fun u => removable g u d)).length :=
        (hperm.filter _).length_eq
      rw [hrlen]
      have hsplit := lockedAssigned_add_removable g users d
      omega
    · rename_i hnlt hngt
      omega

theorem optimizeDay_count_bounds (cap : Int) (users : List String)
    (g : ScheduleGrid) (d : Int) (hndu : users.Nodup) :
    min (countAssignedForDate g users d : Int) cap ≤
      (countAssignedForDate (optimizeDay cap users g d) users d : Int) ∧
    (countAssignedForDate (optimizeDay cap users g d) users d : Int) ≤
      max (countAssignedForDate g users d : Int) cap := by
  unfold optimizeDay
  split
  · rename_i hlt
    have hperm := List.perm_insertionSort
      (fun a b => totalAssignments g a ≤ totalAssignments g b) users
    have hb := fillLoop_count_bounds cap d users hndu _
      (hperm.nodup_iff.mpr hndu) (fun u hu => hperm.mem_iff.mp hu) g _
      rfl hlt
    exact ⟨le_trans (min_le_left _ _) hb.1,
      le_trans hb.2 (le_max_right _ _)⟩
  · split
    · rename_i hnlt hgt
      have hperm := List.perm_insertionSort
        (fun a b => totalAssignments g b ≤ totalAssignments g a) users
      have hb := removeLoop_count_bounds cap d users hndu _
        (hperm.nodup_iff.mpr hndu) (fun u hu => hperm.mem_iff.mp hu) g _
        rfl hgt
      exact ⟨le_trans (min_le_right _ _) hb.1,
        le_trans hb.2 (le_max_left _ _)⟩
    · exact ⟨min_le_left _ _, le_max_left _ _⟩

theorem optimizeDay_gridCell_other (cap : Int) (users : List String)
    (g : ScheduleGrid) (d : Int) {u : String} {d' : Int} (h : d' ≠ d) :
    gridCell (optimizeDay cap users g d) u d' = gridCell g u d' := by
  unfold optimizeDay
  split
  · exact fillLoop_gridCell_ne _ _ _ _ _ h
  · split
    · exact removeLoop_gridCell_ne _ _ _ _ _ h
    · rfl

theorem foldl_optimizeDay_not_mem (cap : Int) (users : List String)
    (ds : List Int) (g : ScheduleGrid) {d : Int} (h : d ∉ ds)
    (u : String) :
    gridCell (ds.foldl (optimizeDay cap users) g) u d = gridCell g u d := by
  induction ds generalizing g with
  | nil => rfl
  | cons d₁ rest ih =>
    rw [List.foldl_cons,
      ih (optimizeDay cap users g d₁)
        (fun hm => h (List.mem_cons_of_mem _ hm))]
    exact optimizeDay_gridCell_other cap users g d₁
      (fun he => h (he ▸ List.mem_cons_self d₁ rest))

theorem foldl_optimizeDay_column (cap : Int) (users : List String)
    (ds : List Int) (g : ScheduleGrid) {d : Int} (hnds : ds.Nodup)
    (hd : d ∈ ds) :
    ∃ g₁ : ScheduleGrid, (∀ u, gridCell g₁ u d = gridCell g u d) ∧
      (∀ u, gridCell (ds.foldl (optimizeDay cap users) g) u d =
        gridCell (optimizeDay cap users g₁ d) u d) := by
  induction ds generalizing g with
  | nil => cases hd
  | cons d₁ rest ih =>
    rw [List.nodup_cons] at hnds
    rw [List.foldl_cons]
    by_cases hdd : d = d₁
    · subst hdd
      exact ⟨g, fun u => rfl, fun u =>
        foldl_optimizeDay_not_mem cap users rest
          (optimizeDay cap users g d) hnds.1 u⟩
    · have hdr : d ∈ rest := by
        rcases List.mem_cons.mp hd with h | h
        · exact absurd h hdd
        · exact h
      obtain ⟨g₁, hcol, hfin⟩ := ih (optimizeDay cap users g d₁) hnds.2 hdr
      exact ⟨g₁, fun u => (hcol u).trans
        (optimizeDay_gridCell_other cap users g d₁ hdd), hfin⟩

/-- A grid is well formed for a period and user list: every user of the
list has a cell for every date of the period. -/
def gridWellFormed (p : WorkPeriod) (users : List String)
    (g : ScheduleGrid) : Prop :=
  ∀ u ∈ users, ∀ d ∈ periodDates p, (gridCell g u d).isSome = true

/-- The C2 claim as stated, at a concrete period, user list, grid and
day: when the day has at least `neededCapacity` non-locked cells and at
least `neededCapacity` users already assigned or assignable (not locked
and not requested off), the optimizer must end the day at exactly
`neededCapacity` assigned users. -/
def capacityConvergenceClaimAt (p : WorkPeriod) (users : List String)
    (g : ScheduleGrid) (d : Int) : Prop :=
  users.Nodup → gridWellFormed p users g → d ∈ periodDates p →
  p.needed_capacity ≤ (nonLockedCount g users d : Int) →
  p.needed_capacity ≤ (assignedOrAssignableCount g users d : Int) →
  (countAssignedForDate (optimizeSchedule p users g) users d : Int) =
    p.needed_capacity

/-- C2 counterexample: one user, one day, the cell locked and assigned,
`neededCapacity = 0`.  All the claim's hypotheses hold (0 non-locked
cells ≥ 0, 0 assigned-or-assignable users ≥ 0, the grid is well formed),
yet the removal walk cannot touch the locked cell and the day ends at
count 1 ≠ 0. -/
theorem capacityConvergence_counterexample :
    ¬ capacityConvergenceClaimAt ⟨0, 0, 0⟩ ["A"]
      [("A", [((0 : Int), ⟨none, true, true, false⟩)])] 0 := by
  unfold capacityConvergenceClaimAt gridWellFormed
  decide

/-- C2 (amended): capacity convergence when feasible — with the
additional hypothesis that the locked assigned cells of the day do not
exceed `neededCapacity` (a locked-heavy over-capacity day cannot
converge), a day of the period with at least `neededCapacity` non-locked
cells and at least `neededCapacity` assigned-or-assignable users ends at
exactly `neededCapacity` assigned users, for a duplicate-free user
list. -/
theorem optimizeSchedule_capacity_convergence (p : WorkPeriod)
    (users : List String) (g : ScheduleGrid) (d : Int)
    (hndu : users.Nodup) (_hwf : gridWellFormed p users g)
    (hd : d ∈ periodDates p)
    (_hnl : p.needed_capacity ≤ (nonLockedCount g users d : Int))
    (hfeas : p.needed_capacity ≤
      (assignedOrAssignableCount g users d : Int))
    (hlock : (lockedAssignedCount g users d : Int) ≤ p.needed_capacity) :
    (countAssignedForDate (optimizeSchedule p users g) users d : Int) =
      p.needed_capacity := by
  unfold optimizeSchedule
  obtain ⟨g₁, hcol, hfin⟩ := foldl_optimizeDay_column p.needed_capacity
    users (periodDates p) g (periodDates_nodup p) hd
  have hce : countAssignedForDate
      ((periodDates p).foldl (optimizeDay p.needed_capacity users) g)
        users d =
      countAssignedForDate (optimizeDay p.needed_capacity users g₁ d)
        users d :=
    countAssignedForDate_congr _ _ users d hfin
  rw [hce]
  refine optimizeDay_count_eq_cap p.needed_capacity users g₁ d hndu ?_ ?_
  · rw [assignedOrAssignableCount_congr _ _ users d hcol]
    exact hfeas
  · rw [lockedAssignedCount_congr _ _ users d hcol]
    exact hlock

/-- C2 witness: two unlocked users, one day, capacity 1 — the day
converges to exactly one assigned user. -/
theorem optimizeSchedule_capacity_convergence_witness :
    (countAssignedForDate
        (optimizeSchedule ⟨0, 0, 1⟩ ["A", "B"]
          [("A", [((0 : Int), ⟨none, false, false, false⟩)]),
           ("B", [((0 : Int), ⟨none, false, false, false⟩)])])
        ["A", "B"] 0 : Int) = 1 :=
  optimizeSchedule_capacity_convergence ⟨0, 0, 1⟩ ["A", "B"]
    [("A", [((0 : Int), ⟨none, false, false, false⟩)]),
     ("B", [((0 : Int), ⟨none, false, false, false⟩)])] 0
    (by decide) (by unfold gridWellFormed; decide) (by decide) (by decide)
    (by decide) (by decide)

/-- C10: No overshoot past capacity — for every day of the period the
assigned count of the optimized grid lies between
min(input count, neededCapacity) and max(input count, neededCapacity):
the filling walk never pushes a day above `neededCapacity`, the removal
walk never pulls it below, and other days' passes leave the column
untouched. -/
theorem optimizeSchedule_count_bounds (p : WorkPeriod)
    (users : List String) (g : ScheduleGrid) (d : Int)
    (hndu : users.Nodup) (hd : d ∈ periodDates p) :
    min (countAssignedForDate g users d : Int) p.needed_capacity ≤
      (countAssignedForDate (optimizeSchedule p users g) users d : Int) ∧
    (countAssignedForDate (optimizeSchedule p users g) users d : Int) ≤
      max (countAssignedForDate g users d : Int) p.needed_capacity := by
  unfold optimizeSchedule
  obtain ⟨g₁, hcol, hfin⟩ := foldl_optimizeDay_column p.needed_capacity
    users (periodDates p) g (periodDates_nodup p) hd
  have hce : countAssignedForDate
      ((periodDates p).foldl (optimizeDay p.needed_capacity users) g)
        users d =
      countAssignedForDate (optimizeDay p.needed_capacity users g₁ d)
        users d :=
    countAssignedForDate_congr _ _ users d hfin
  rw [hce]
  have hc0 : countAssignedForDate g₁ users d =
      countAssignedForDate g users d :=
    countAssignedForDate_congr _ _ users d hcol
  have hb := optimizeDay_count_bounds p.needed_capacity users g₁ d hndu
  rw [hc0] at hb
  exact hb

/-- C10 witness: one unlocked user, one day, capacity 1 — the resulting
count 1 lies between min(0, 1) = 0 and max(0, 1) = 1. -/
theorem optimizeSchedule_count_bounds_witness :
    min (countAssignedForDate
        [("A", [((0 : Int), ⟨none, false, false, false⟩)])] ["A"] 0 : Int)
        (1 : Int) ≤
      (countAssignedForDate
        (optimizeSchedule ⟨0, 0, 1⟩ ["A"]
          [("A", [((0 : Int), ⟨none, false, false, false⟩)])]) ["A"]
        0 : Int) ∧
    (countAssignedForDate
        (optimizeSchedule ⟨0, 0, 1⟩ ["A"]
          [("A", [((0 : Int), ⟨none, false, false, false⟩)])]) ["A"]
        0 : Int) ≤
      max (countAssignedForDate
        [("A", [((0 : Int), ⟨none, false, false, false⟩)])] ["A"] 0 : Int)
        (1 : Int) :=
  optimizeSchedule_count_bounds ⟨0, 0, 1⟩ ["A"]
    [("A", [((0 : Int), ⟨none, false, false, false⟩)])] 0
    (by decide) (by decide)
